import Mathlib

/-!
Verification development for the Arcane Terraform provider's deployment
reconciliation logic (internal/provider/project_deployment_resource.go,
internal/provider/project_status_data_source.go, internal/client).

Modelling conventions: Go strings are Lean String (List Char where we need
structural induction, as in the import-ID split); Go time.Duration values
are nanosecond counts (Int where sign matters, Nat for elapsed time);
the backend is an oracle giving each remote call's outcome; the trace of
remote calls issued by an operation is returned explicitly as a list.
-/

namespace Arcane

/-! ### Client error model (internal/client: APIError, IsNotFound) -/

/-- An error surfaced by the HTTP client: either a structured APIError
carrying the HTTP status code, message and detail, or any other error
(transport failure etc.), mirroring internal/client's error values. -/
inductive ClientError where
  | api (statusCode : Nat) (message : String) (detail : String)
  | other (message : String)
deriving DecidableEq, Repr

/-- Embeds client.IsNotFound: true exactly when the error is an APIError
with StatusCode 404. -/
def IsNotFound : ClientError → Bool
  | .api statusCode _ _ => statusCode == 404
  | .other _ => false

/-! ### Trigger maps and the last_deployed_at plan modifier (C1) -/

/-- A Terraform map of strings, as an association list (Go map iteration
order is irrelevant: equality below is lookup-extensional). -/
def TriggerMap : Type := List (String × String)

/-- Lookup of a key in a trigger map (first matching entry). -/
def lookupTrigger (k : String) : List (String × String) → Option String
  | [] => none
  | (k', v) :: rest => if k' = k then some v else lookupTrigger k rest

/-- Order-irrelevant exact equality of two trigger maps: every key present
in either map has the same lookup result in both.  This embeds
types.Map.Equal on two known maps of strings. -/
def triggersEqual (a b : List (String × String)) : Bool :=
  ((a.map Prod.fst) ++ (b.map Prod.fst)).all (fun k =>
    lookupTrigger k a == lookupTrigger k b)

/-- Equality of two possibly-null trigger maps (triggers is Optional with
no default, so it may be null).  Null equals only null. -/
def mapValueEqual : Option (List (String × String)) → Option (List (String × String)) → Bool
  | none, none => true
  | some a, some b => triggersEqual a b
  | _, _ => false

/-- The specification-level statement of trigger-map equality: both null,
or both known with identical lookups at every key. -/
def TriggersMatch : Option (List (String × String)) → Option (List (String × String)) → Prop
  | none, none => True
  | some a, some b => ∀ k, lookupTrigger k a = lookupTrigger k b
  | _, _ => False

/-- A Terraform string value in a plan: unknown, a known value, or null. -/
inductive PlanValue where
  | unknown
  | value (s : String)
  | null
deriving DecidableEq, Repr

/-- The attribute values read by lastDeployedAtPlanModifier.PlanModifyString:
plan and state copies of triggers and of the three boolean options. -/
structure ChangeInputs where
  planTriggers : Option (List (String × String))
  stateTriggers : Option (List (String × String))
  planPull : Bool
  statePull : Bool
  planForceRecreate : Bool
  stateForceRecreate : Bool
  planRemoveOrphans : Bool
  stateRemoveOrphans : Bool

/-- The changed flag computed by PlanModifyString: the trigger maps differ,
or any of pull / force_recreate / remove_orphans differs. -/
def deploymentAttrsChanged (c : ChangeInputs) : Bool :=
  !(mapValueEqual c.planTriggers c.stateTriggers)
    || (c.planPull != c.statePull)
    || (c.planForceRecreate != c.stateForceRecreate)
    || (c.planRemoveOrphans != c.stateRemoveOrphans)

/-- Embeds lastDeployedAtPlanModifier.PlanModifyString.  On create (state
value null) the incoming plan value is left untouched; otherwise the plan
value becomes unknown when any deployment-triggering attribute changed,
and is the preserved state value when nothing changed. -/
def planModifyLastDeployedAt (stateValue planValue : PlanValue) (c : ChangeInputs) : PlanValue :=
  if stateValue = .null then planValue
  else if deploymentAttrsChanged c then .unknown
  else stateValue

/-- The spec-level condition under which no redeploy is needed: trigger
maps match and all three boolean options coincide. -/
def SpecUnchanged (c : ChangeInputs) : Prop :=
  TriggersMatch c.planTriggers c.stateTriggers ∧ c.planPull = c.statePull ∧
    c.planForceRecreate = c.stateForceRecreate ∧ c.planRemoveOrphans = c.stateRemoveOrphans

/-! ### Wait-timeout parsing (C10) -/

/-- 2 * time.Minute in nanoseconds, the fallback used by parseWaitTimeout. -/
def twoMinutesNs : Int := 120 * 1000000000

/-- Embeds ProjectDeploymentResource.parseWaitTimeout.  parseDuration
abstracts Go's stdlib time.ParseDuration (external to this repository):
it returns the parsed duration in nanoseconds, or none on a parse error. -/
def parseWaitTimeout (parseDuration : String → Option Int) (waitTimeout : String) : Int :=
  if waitTimeout = "" then twoMinutesNs
  else
    match parseDuration waitTimeout with
    | none => twoMinutesNs
    | some d => d

/-! ### Composite-ID construction and import (C9) -/

/-- Embeds the ID set by Create (line 363): environment_id/project_id.
Strings are modelled as char lists for structural reasoning. -/
def createID (env proj : List Char) : List Char := env ++ '/' :: proj

/-- strings.SplitN(id, "/", 2): splits at the first slash, returning the
part before it and everything after it, or none when no slash occurs. -/
def splitFirstSlash : List Char → Option (List Char × List Char)
  | [] => none
  | c :: cs =>
    if c = '/' then some ([], cs)
    else
      match splitFirstSlash cs with
      | none => none
      | some (a, b) => some (c :: a, b)

/-- Embeds ProjectDeploymentResource.ImportState: the import ID must split
into two non-empty parts at its first slash; otherwise the import is
rejected (none) with an Invalid import ID error. -/
def importStateID (id : List Char) : Option (List Char × List Char) :=
  match splitFirstSlash id with
  | none => none
  | some (a, b) => if a = [] ∨ b = [] then none else some (a, b)

/-! ### Remote calls and Delete (C3, C4) -/

/-- A remote call issued to the backend through the environment client. -/
inductive RemoteCall where
  | getProject (projectID : String)
  | deployProject (projectID : String) (pull forceRecreate removeOrphans : Bool)
  | redeployProject (projectID : String) (pull forceRecreate removeOrphans : Bool)
  | stopProject (projectID : String)
deriving DecidableEq, Repr

/-- Embeds ProjectDeploymentResource.Delete.  stopResult is the backend's
response to the StopProject call (none = success), consulted only when
stop_on_delete is true.  Returns the list of remote calls issued and the
error added to diagnostics (none = the destroy succeeds). -/
def deleteProject (stopOnDelete : Bool) (projectID : String)
    (stopResult : Option ClientError) : List RemoteCall × Option ClientError :=
  if stopOnDelete then
    ([.stopProject projectID],
      match stopResult with
      | none => none
      | some e => if IsNotFound e then none else some e)
  else ([], none)

/-! ### Reachability wait (C5, C6, C7) -/

/-- One second in nanoseconds (time.Second). -/
def sec : Nat := 1000000000

/-- The backoff update performed after each sleep: double, capped at 30s,
taken verbatim from the end of the waitForAgent loop body. -/
def backoffNext (b : Nat) : Nat :=
  if b < 30 * sec then (if b * 2 > 30 * sec then 30 * sec else b * 2) else b

/-- Outcome of the reachability wait: success or timeout carry the number
of probe (GetProject) calls issued and the list of completed sleeps, a
timeout also carries the last probe error it wraps; cancellation carries
the absolute time at which the context was cancelled. -/
inductive WaitResult where
  | success (probeCalls : Nat) (sleeps : List Nat)
  | timeout (probeCalls : Nat) (sleeps : List Nat) (lastError : ClientError)
  | cancelled (cancelTime : Nat) (probeCalls : Nat) (sleeps : List Nat)
  | outOfFuel
deriving DecidableEq, Repr

/-- The loop body of ProjectDeploymentResource.waitForAgent.  probe gives
the outcome of the i-th GetProject call (none = reachable); deadline is
the absolute deadline (start time 0 plus the timeout, Int so negative
timeouts behave as in Go); cancelAt is the absolute time at which the
calling context is cancelled, if ever.  Each failed probe is followed by
the deadline check (strict, as time.Now().After), then a sleep of the
current backoff that the context cancellation can interrupt.  Fuel bounds
the number of iterations of this shallow embedding only. -/
def waitLoop (probe : Nat → Option ClientError) (deadline : Int) (cancelAt : Option Nat) :
    Nat → Nat → Nat → List Nat → Nat → WaitResult
  | _, _, _, _, 0 => .outOfFuel
  | now, backoff, calls, sleeps, fuel + 1 =>
    match probe calls with
    | none => .success (calls + 1) sleeps.reverse
    | some e =>
      if deadline < (now : Int) then .timeout (calls + 1) sleeps.reverse e
      else
        match cancelAt with
        | some c =>
          if c < now + backoff then .cancelled c (calls + 1) sleeps.reverse
          else
            waitLoop probe deadline cancelAt (now + backoff) (backoffNext backoff)
              (calls + 1) (backoff :: sleeps) fuel
        | none =>
          waitLoop probe deadline cancelAt (now + backoff) (backoffNext backoff)
            (calls + 1) (backoff :: sleeps) fuel

/-- Embeds ProjectDeploymentResource.waitForAgent: start at time 0 with a
5-second initial backoff. -/
def waitForAgent (probe : Nat → Option ClientError) (timeout : Int)
    (cancelAt : Option Nat) (fuel : Nat) : WaitResult :=
  waitLoop probe timeout cancelAt 0 (5 * sec) 0 [] fuel

/-- The expected backoff sequence: 5s doubling each round, capped at 30s
(5s, 10s, 20s, 30s, 30s, ...). -/
def backoffSeq (n : Nat) : Nat := min (5 * 2 ^ n * sec) (30 * sec)

/-- The per-result invariant of the wait loop: on success the sleeps are
exactly the backoff-sequence values, the succeeding probe is the first
successful one, and no probe follows it; on timeout likewise, and the
returned error is the last probe's error. -/
def WaitResultOk (probe : Nat → Option ClientError) : WaitResult → Prop
  | .success n s =>
      s = (List.range (n - 1)).map backoffSeq ∧ s.length = n - 1 ∧
        probe (n - 1) = none ∧ ∀ j, j < n - 1 → (probe j).isSome = true
  | .timeout n s e =>
      s = (List.range (n - 1)).map backoffSeq ∧ s.length = n - 1 ∧
        probe (n - 1) = some e ∧ ∀ j, j < n - 1 → (probe j).isSome = true
  | .cancelled _ _ _ => True
  | .outOfFuel => True

/-! ### Create (C2) -/

/-- The desired deployment declaration, as read from the plan. -/
structure DeploymentSpec where
  environmentID : String
  projectID : String
  pull : Bool
  forceRecreate : Bool
  removeOrphans : Bool
  stopOnDelete : Bool
  triggers : Option (List (String × String))
  waitTimeout : String

/-- The state written by a successful Create: composite id, the status
fetched from the backend, and the deployment timestamp. -/
structure CreateResult where
  id : String
  status : String
  lastDeployedAt : String
deriving DecidableEq, Repr

/-- Embeds ProjectDeploymentResource.Create: wait for the agent (each
probe is a GetProject call), then unconditionally deploy with the spec's
pull/force_recreate/remove_orphans options, then fetch the status.
deployResult and statusResult are the backend's responses to the up call
and the subsequent GetProject; nowStr is the RFC3339 wall-clock time.
Returns the remote calls issued and the outcome. -/
def createProject (spec : DeploymentSpec) (parseDuration : String → Option Int)
    (probe : Nat → Option ClientError) (cancelAt : Option Nat) (fuel : Nat)
    (deployResult : Option ClientError) (statusResult : Except ClientError String)
    (nowStr : String) : List RemoteCall × Except ClientError CreateResult :=
  match waitForAgent probe (parseWaitTimeout parseDuration spec.waitTimeout) cancelAt fuel with
  | .success n _ =>
    let probeCalls := List.replicate n (RemoteCall.getProject spec.projectID)
    match deployResult with
    | some e =>
      (probeCalls ++
        [.deployProject spec.projectID spec.pull spec.forceRecreate spec.removeOrphans],
       .error e)
    | none =>
      match statusResult with
      | .error e =>
        (probeCalls ++
          [.deployProject spec.projectID spec.pull spec.forceRecreate spec.removeOrphans,
           .getProject spec.projectID],
         .error e)
      | .ok st =>
        (probeCalls ++
          [.deployProject spec.projectID spec.pull spec.forceRecreate spec.removeOrphans,
           .getProject spec.projectID],
         .ok { id := spec.environmentID ++ "/" ++ spec.projectID, status := st,
               lastDeployedAt := nowStr })
  | .timeout n _ e => (List.replicate n (.getProject spec.projectID), .error e)
  | .cancelled _ n _ =>
    (List.replicate n (.getProject spec.projectID), .error (.other "context canceled"))
  | .outOfFuel => ([], .error (.other "out of fuel"))

/-! ### Project-status containers output (C8) -/

/-- A service entry of the project document (name, image, status). -/
structure ServiceInfo where
  name : String
  image : String
  status : String
deriving DecidableEq, Repr

/-- A port mapping of a container. -/
structure ContainerPortInfo where
  hostPort : Int
  containerPort : Int
  protocol : String
deriving DecidableEq, Repr

/-- A detailed container entry, as produced for the containers output. -/
structure ContainerDetail where
  id : String
  name : String
  image : String
  status : String
  health : String
  ports : List ContainerPortInfo
deriving DecidableEq, Repr

/-- The container entry built from a service in the fallback branch of
ProjectStatusDataSource.Read: empty id, health and ports. -/
def serviceAsContainer (svc : ServiceInfo) : ContainerDetail :=
  { id := "", name := svc.name, image := svc.image, status := svc.status,
    health := "", ports := [] }

/-- Embeds the containers-output logic of ProjectStatusDataSource.Read:
on a GetProjectContainers error, fall back to the project's services when
non-empty, else null (none); on success, use the detailed list when
non-empty, else null.  (In the detailed branch the empty-string guards on
image and health are the identity, so the entries are copied as-is.) -/
def buildContainersOutput (containersResult : Except ClientError (List ContainerDetail))
    (services : List ServiceInfo) : Option (List ContainerDetail) :=
  match containersResult with
  | .error _ =>
    if services.length > 0 then some (services.map serviceAsContainer) else none
  | .ok containers => if containers.length > 0 then some containers else none

/-! ### Concrete inputs used by the witnesses -/

/-- Concrete plan/state attribute values with identical triggers and
options, used to witness the no-op branch of the reconcile decision. -/
def changeInputsW : ChangeInputs :=
  { planTriggers := some [("compose", "v1")], stateTriggers := some [("compose", "v1")],
    planPull := true, statePull := true,
    planForceRecreate := false, stateForceRecreate := false,
    planRemoveOrphans := false, stateRemoveOrphans := false }

/-- A concrete stand-in for the duration parser: accepts 30s and -5s. -/
def parseDurationW (s : String) : Option Int :=
  if s = "30s" then some 30000000000
  else if s = "-5s" then some (-5000000000)
  else none

/-- A probe that fails on the first two calls and succeeds on the third. -/
def probeThirdW : Nat → Option ClientError :=
  fun j => if j < 2 then some (.other "unreachable") else none

/-- A probe that always fails. -/
def probeFailW : Nat → Option ClientError := fun _ => some (.other "down")

/-- A concrete deployment spec. -/
def specW : DeploymentSpec :=
  { environmentID := "env", projectID := "p1", pull := true, forceRecreate := false,
    removeOrphans := true, stopOnDelete := false, triggers := some [("compose", "v1")],
    waitTimeout := "" }

/-- A concrete service entry. -/
def svcW : ServiceInfo := { name := "web", image := "nginx", status := "running" }

/-! ### Helper lemmas on trigger-map equality -/

theorem lookupTrigger_eq_none (k : String) :
    ∀ l : List (String × String), k ∉ l.map Prod.fst → lookupTrigger k l = none := by
  intro l
  induction l with
  | nil => intro _; rfl
  | cons p rest ih =>
    obtain ⟨k', v⟩ := p
    intro h
    simp only [List.map_cons, List.mem_cons] at h
    push_neg at h
    simp only [lookupTrigger]
    rw [if_neg (fun hh => h.1 hh.symm), ih h.2]

theorem triggersEqual_iff (a b : List (String × String)) :
    triggersEqual a b = true ↔ ∀ k, lookupTrigger k a = lookupTrigger k b := by
  unfold triggersEqual
  rw [List.all_eq_true]
  constructor
  · intro h k
    by_cases hk : k ∈ a.map Prod.fst ++ b.map Prod.fst
    · exact beq_iff_eq.mp (h k hk)
    · simp only [List.mem_append] at hk
      push_neg at hk
      rw [lookupTrigger_eq_none k a hk.1, lookupTrigger_eq_none k b hk.2]
  · intro h k _
    exact beq_iff_eq.mpr (h k)

theorem mapValueEqual_iff (x y : Option (List (String × String))) :
    mapValueEqual x y = true ↔ TriggersMatch x y := by
  match x, y with
  | none, none => simp [mapValueEqual, TriggersMatch]
  | none, some b => simp [mapValueEqual, TriggersMatch]
  | some a, none => simp [mapValueEqual, TriggersMatch]
  | some a, some b => simpa [mapValueEqual, TriggersMatch] using triggersEqual_iff a b

theorem deploymentAttrsChanged_iff (c : ChangeInputs) :
    deploymentAttrsChanged c = true ↔ ¬ SpecUnchanged c := by
  have hm := mapValueEqual_iff c.planTriggers c.stateTriggers
  unfold deploymentAttrsChanged SpecUnchanged
  simp only [Bool.or_eq_true, Bool.not_eq_true', bne_iff_ne]
  rw [Bool.eq_false_iff, Ne, hm]
  tauto

/-- C1: with a previous spec present (state value non-null), the plan
modifier marks last_deployed_at unknown (redeploy) exactly when the
trigger map (lookup-extensional, order-irrelevant equality) or one of the
three boolean options differs between plan and state; when everything
matches it preserves the prior state value (no-op, no redeploy). -/
theorem reconcile_redeploy_iff_changed (s : String) (planValue : PlanValue) (c : ChangeInputs) :
    (planModifyLastDeployedAt (.value s) planValue c = .unknown ↔ ¬ SpecUnchanged c) ∧
    (SpecUnchanged c → planModifyLastDeployedAt (.value s) planValue c = .value s) := by
  unfold planModifyLastDeployedAt
  rw [if_neg (by simp)]
  by_cases hch : deploymentAttrsChanged c = true
  · rw [if_pos hch]
    refine ⟨iff_of_true rfl ((deploymentAttrsChanged_iff c).mp hch), ?_⟩
    intro hall
    exact absurd hall ((deploymentAttrsChanged_iff c).mp hch)
  · rw [if_neg hch]
    have hall : SpecUnchanged c := by
      by_contra hno
      exact hch ((deploymentAttrsChanged_iff c).mpr hno)
    exact ⟨iff_of_false (by simp) (not_not_intro hall), fun _ => rfl⟩

theorem reconcile_redeploy_iff_changed_witness :
    planModifyLastDeployedAt (.value "2024-01-01T00:00:00Z") .unknown changeInputsW =
      .value "2024-01-01T00:00:00Z" :=
  (reconcile_redeploy_iff_changed "2024-01-01T00:00:00Z" .unknown changeInputsW).2
    ⟨fun _ => rfl, rfl, rfl, rfl⟩

/-- C10: parseWaitTimeout is total and never reports an error: the empty
string and any string the duration parser rejects both yield the default
of 2 minutes, and any parsed duration (zero and negative included) is
returned unchanged. -/
theorem parseWaitTimeout_total (pd : String → Option Int) (s : String) :
    (s = "" → parseWaitTimeout pd s = twoMinutesNs) ∧
    (pd s = none → parseWaitTimeout pd s = twoMinutesNs) ∧
    (∀ d : Int, s ≠ "" → pd s = some d → parseWaitTimeout pd s = d) := by
  refine ⟨fun h => by simp [parseWaitTimeout, h], ?_, ?_⟩
  · intro h
    by_cases hs : s = ""
    · simp [parseWaitTimeout, hs]
    · simp [parseWaitTimeout, hs, h]
  · intro d hs hd
    simp [parseWaitTimeout, hs, hd]

theorem parseWaitTimeout_total_witness :
    parseWaitTimeout parseDurationW "" = twoMinutesNs ∧
    parseWaitTimeout parseDurationW "bogus" = twoMinutesNs ∧
    parseWaitTimeout parseDurationW "-5s" = -5000000000 :=
  ⟨(parseWaitTimeout_total parseDurationW "").1 rfl,
   (parseWaitTimeout_total parseDurationW "bogus").2.1 rfl,
   (parseWaitTimeout_total parseDurationW "-5s").2.2 (-5000000000) (by decide) rfl⟩

/-! ### Import round-trip (C9) -/

theorem splitFirstSlash_append (env proj : List Char) (h : '/' ∉ env) :
    splitFirstSlash (env ++ '/' :: proj) = some (env, proj) := by
  induction env with
  | nil => simp [splitFirstSlash]
  | cons c cs ih =>
    simp only [List.mem_cons] at h
    push_neg at h
    simp only [List.cons_append, splitFirstSlash, List.append_eq]
    rw [if_neg (fun hh => h.1 hh.symm), ih h.2]

theorem splitFirstSlash_eq :
    ∀ (id a b : List Char), splitFirstSlash id = some (a, b) → id = a ++ '/' :: b := by
  intro id
  induction id with
  | nil => intro a b h; simp [splitFirstSlash] at h
  | cons c cs ih =>
    intro a b h
    simp only [splitFirstSlash] at h
    by_cases hc : c = '/'
    · rw [if_pos hc] at h
      obtain ⟨rfl, rfl⟩ := Prod.mk.injEq .. ▸ Option.some.injEq .. ▸ h
      simp [hc]
    · rw [if_neg hc] at h
      match hs : splitFirstSlash cs with
      | none => rw [hs] at h; simp at h
      | some (a', b') =>
        rw [hs] at h
        simp only [Option.some.injEq, Prod.mk.injEq] at h
        obtain ⟨rfl, rfl⟩ := h
        simp [ih a' b' hs]

/-- C9: the composite key round-trips through import: for a non-empty,
slash-free environment identifier and a non-empty project identifier,
importing the ID built by Create recovers exactly the original pair; and
any import ID that is not two non-empty parts separated by a slash is
rejected. -/
theorem importState_roundTrip :
    (∀ env proj : List Char, env ≠ [] → proj ≠ [] → '/' ∉ env →
      importStateID (createID env proj) = some (env, proj)) ∧
    (∀ id : List Char, (¬ ∃ a b : List Char, a ≠ [] ∧ b ≠ [] ∧ id = a ++ '/' :: b) →
      importStateID id = none) := by
  constructor
  · intro env proj henv hproj hslash
    unfold importStateID createID
    rw [splitFirstSlash_append env proj hslash]
    simp [henv, hproj]
  · intro id hno
    match h : importStateID id with
    | none => rfl
    | some (a, b) =>
      exfalso
      unfold importStateID at h
      match hs : splitFirstSlash id with
      | none => rw [hs] at h; simp at h
      | some (a', b') =>
        rw [hs] at h
        dsimp only at h
        by_cases he : a' = [] ∨ b' = []
        · rw [if_pos he] at h; simp at h
        · push_neg at he
          exact hno ⟨a', b', he.1, he.2, splitFirstSlash_eq id a' b' hs⟩

theorem importState_roundTrip_witness :
    importStateID (createID ['e', 'n', 'v'] ['p', '1']) = some (['e', 'n', 'v'], ['p', '1']) ∧
    importStateID ['x'] = none :=
  ⟨importState_roundTrip.1 ['e', 'n', 'v'] ['p', '1'] (by decide) (by decide) (by decide),
   importState_roundTrip.2 ['x'] (by
    rintro ⟨a, b, ha, hb, he⟩
    have hlen := congrArg List.length he
    have hpos : 0 < a.length := List.length_pos.mpr ha
    simp only [List.length_cons, List.length_append, List.length_nil] at hlen
    omega)⟩

/-! ### Delete (C3, C4) -/

/-- C3: destroying a deployment record with stop_on_delete=false issues no
remote call at all and always succeeds: the record is only forgotten. -/
theorem deleteProject_noStop_noCalls (projectID : String) (stopResult : Option ClientError) :
    deleteProject false projectID stopResult = ([], none) := rfl

/-- C4: destroying with stop_on_delete=true issues exactly one stop call;
it succeeds exactly when the backend call succeeds or fails with a 404
APIError (idempotent already-absent case), and every other backend error
is propagated as the destroy's failure. -/
theorem deleteProject_stop_idempotent (projectID : String) (stopResult : Option ClientError) :
    (deleteProject true projectID stopResult).1 = [.stopProject projectID] ∧
    ((deleteProject true projectID stopResult).2 = none ↔
      stopResult = none ∨ ∃ m d, stopResult = some (.api 404 m d)) ∧
    (∀ e, stopResult = some e → IsNotFound e = false →
      (deleteProject true projectID stopResult).2 = some e) := by
  refine ⟨rfl, ?_, ?_⟩
  · match stopResult with
    | none => simp [deleteProject]
    | some (.api st m d) =>
      by_cases h404 : st = 404
      · subst h404
        simp [deleteProject, IsNotFound]
      · simp [deleteProject, IsNotFound, h404]
    | some (.other m) => simp [deleteProject, IsNotFound]
  · intro e he hnf
    subst he
    simp [deleteProject, hnf]

theorem deleteProject_stop_idempotent_witness :
    (deleteProject true "proj" (some (.api 404 "not found" ""))).2 = none :=
  (deleteProject_stop_idempotent "proj" (some (.api 404 "not found" ""))).2.1.mpr
    (Or.inr ⟨"not found", "", rfl⟩)

/-! ### Backoff-sequence lemmas -/

theorem backoffSeq_zero : backoffSeq 0 = 5 * sec := by decide

theorem backoffSeq_le (n : Nat) : backoffSeq n ≤ 30 * sec := Nat.min_le_right _ _

theorem backoffNext_seq (n : Nat) : backoffNext (backoffSeq n) = backoffSeq (n + 1) := by
  match n with
  | 0 => decide
  | 1 => decide
  | 2 => decide
  | m + 3 =>
    have h8 : (8 : Nat) ≤ 2 ^ (m + 3) := by
      calc (8 : Nat) = 2 ^ 3 := by norm_num
        _ ≤ 2 ^ (m + 3) := Nat.pow_le_pow_right (by norm_num) (by omega)
    have h3 : 30 * sec ≤ 5 * 2 ^ (m + 3) * sec := by
      have : 40 ≤ 5 * 2 ^ (m + 3) := by
        calc (40 : Nat) = 5 * 8 := by norm_num
          _ ≤ 5 * 2 ^ (m + 3) := Nat.mul_le_mul_left 5 h8
      exact Nat.mul_le_mul_right sec (by omega)
    have h4 : 30 * sec ≤ 5 * 2 ^ (m + 4) * sec := by
      refine le_trans h3 (Nat.mul_le_mul_right sec (Nat.mul_le_mul_left 5 ?_))
      exact Nat.pow_le_pow_right (by norm_num) (by omega)
    unfold backoffSeq
    rw [Nat.min_eq_right h3, Nat.min_eq_right h4]
    unfold backoffNext
    rw [if_neg (by omega)]

theorem backoffNext_le (b : Nat) (h : b ≤ 30 * sec) : backoffNext b ≤ 30 * sec := by
  unfold backoffNext
  split_ifs <;> omega

theorem backoffNext_ge (b : Nat) : b ≤ backoffNext b := by
  unfold backoffNext
  split_ifs <;> omega

/-! ### Wait-loop unfolding equations -/

theorem waitLoop_zero (probe : Nat → Option ClientError) (deadline : Int)
    (cancelAt : Option Nat) (now b k : Nat) (acc : List Nat) :
    waitLoop probe deadline cancelAt now b k acc 0 = .outOfFuel := rfl

theorem waitLoop_succ (probe : Nat → Option ClientError) (deadline : Int)
    (cancelAt : Option Nat) (now b k : Nat) (acc : List Nat) (fuel : Nat) :
    waitLoop probe deadline cancelAt now b k acc (fuel + 1) =
      match probe k with
      | none => .success (k + 1) acc.reverse
      | some e =>
        if deadline < (now : Int) then .timeout (k + 1) acc.reverse e
        else
          match cancelAt with
          | some c =>
            if c < now + b then .cancelled c (k + 1) acc.reverse
            else
              waitLoop probe deadline cancelAt (now + b) (backoffNext b)
                (k + 1) (b :: acc) fuel
          | none =>
            waitLoop probe deadline cancelAt (now + b) (backoffNext b)
              (k + 1) (b :: acc) fuel := rfl

/-- The wait loop always returns within the deadline's worth of fuel: the
fuel parameter is an artifact of the shallow embedding, not of the code. -/
theorem waitLoop_progress (probe : Nat → Option ClientError) (deadline : Int)
    (cancelAt : Option Nat) :
    ∀ (fuel now b k : Nat) (acc : List Nat),
      deadline < (now : Int) + (b : Int) * (fuel : Int) →
      waitLoop probe deadline cancelAt now b k acc (fuel + 1) ≠ .outOfFuel := by
  intro fuel
  induction fuel with
  | zero =>
    intro now b k acc hbound
    rw [waitLoop_succ]
    cases hp : probe k with
    | none => simp
    | some e =>
      dsimp only
      rw [if_pos (by push_cast at hbound ⊢; linarith)]
      simp
  | succ fuel ih =>
    intro now b k acc hbound
    rw [waitLoop_succ]
    cases hp : probe k with
    | none => simp
    | some e =>
      dsimp only
      by_cases hd : deadline < (now : Int)
      · rw [if_pos hd]; simp
      · rw [if_neg hd]
        have hrec : deadline < ((now + b : Nat) : Int) +
            ((backoffNext b : Nat) : Int) * ((fuel : Nat) : Int) := by
          have hmono : (b : Int) * (fuel : Int) ≤
              ((backoffNext b : Nat) : Int) * (fuel : Int) := by
            have := backoffNext_ge b
            have hb : (b : Int) ≤ ((backoffNext b : Nat) : Int) := by exact_mod_cast this
            exact mul_le_mul_of_nonneg_right hb (by positivity)
          push_cast at hbound ⊢
          push_cast at hmono
          nlinarith
        cases cancelAt with
        | some c =>
          dsimp only
          by_cases hc : c < now + b
          · rw [if_pos hc]; simp
          · rw [if_neg hc]
            exact ih (now + b) (backoffNext b) (k + 1) (b :: acc) hrec
        | none =>
          exact ih (now + b) (backoffNext b) (k + 1) (b :: acc) hrec

/-! ### Wait-loop invariant (C5) -/

theorem waitLoop_ok (probe : Nat → Option ClientError) (deadline : Int)
    (cancelAt : Option Nat) :
    ∀ fuel k now acc,
      acc.reverse = (List.range k).map backoffSeq →
      (∀ j, j < k → (probe j).isSome = true) →
      WaitResultOk probe (waitLoop probe deadline cancelAt now (backoffSeq k) k acc fuel) := by
  intro fuel
  induction fuel with
  | zero =>
    intro k now acc hacc hpre
    rw [waitLoop_zero]
    trivial
  | succ fuel ih =>
    intro k now acc hacc hpre
    have hacc' : (backoffSeq k :: acc).reverse = (List.range (k + 1)).map backoffSeq := by
      rw [List.reverse_cons, hacc, List.range_succ, List.map_append]
      rfl
    rw [waitLoop_succ]
    cases hp : probe k with
    | none =>
      refine ⟨?_, ?_, ?_, ?_⟩
      · rw [Nat.add_sub_cancel, hacc]
      · rw [Nat.add_sub_cancel, hacc]
        simp
      · rw [Nat.add_sub_cancel]; exact hp
      · rw [Nat.add_sub_cancel]; exact hpre
    | some e =>
      dsimp only
      by_cases hd : deadline < (now : Int)
      · rw [if_pos hd]
        refine ⟨?_, ?_, ?_, ?_⟩
        · rw [Nat.add_sub_cancel, hacc]
        · rw [Nat.add_sub_cancel, hacc]
          simp
        · rw [Nat.add_sub_cancel]; exact hp
        · rw [Nat.add_sub_cancel]; exact hpre
      · rw [if_neg hd]
        have hpre' : ∀ j, j < k + 1 → (probe j).isSome = true := by
          intro j hj
          rcases Nat.lt_succ_iff_lt_or_eq.mp hj with h | rfl
          · exact hpre j h
          · rw [hp]; rfl
        cases cancelAt with
        | some c =>
          dsimp only
          by_cases hc : c < now + backoffSeq k
          · rw [if_pos hc]
            trivial
          · rw [if_neg hc, backoffNext_seq]
            exact ih (k + 1) (now + backoffSeq k) (backoffSeq k :: acc) hacc' hpre'
        | none =>
          rw [backoffNext_seq]
          exact ih (k + 1) (now + backoffSeq k) (backoffSeq k :: acc) hacc' hpre'

/-- C5: the reachability wait sleeps following exactly the backoff
sequence 5s, 10s, 20s, 30s, 30s, ... (backoffSeq); it returns success at
the first probe call that returns none, sleeping once after each of the
earlier failed calls and polling no further; and a timeout result wraps
the error of the last (failed) probe call. -/
theorem waitForAgent_polls_with_backoff (probe : Nat → Option ClientError)
    (timeout : Int) (cancelAt : Option Nat) (fuel : Nat) :
    (∀ n s, waitForAgent probe timeout cancelAt fuel = .success n s →
        s = (List.range (n - 1)).map backoffSeq ∧ s.length = n - 1 ∧
        probe (n - 1) = none ∧ ∀ j, j < n - 1 → (probe j).isSome = true) ∧
    (∀ n s e, waitForAgent probe timeout cancelAt fuel = .timeout n s e →
        s = (List.range (n - 1)).map backoffSeq ∧ s.length = n - 1 ∧
        probe (n - 1) = some e ∧ ∀ j, j < n - 1 → (probe j).isSome = true) ∧
    (∀ f : Nat, timeout < ((5 * sec * f : Nat) : Int) →
        waitForAgent probe timeout cancelAt (f + 1) ≠ .outOfFuel) := by
  have h := waitLoop_ok probe timeout cancelAt fuel 0 0 []
    (by simp) (fun j hj => absurd hj (Nat.not_lt_zero j))
  rw [backoffSeq_zero] at h
  refine ⟨?_, ?_, ?_⟩
  · intro n s hres
    rw [waitForAgent] at hres
    rw [hres] at h
    exact h
  · intro n s e hres
    rw [waitForAgent] at hres
    rw [hres] at h
    exact h
  · intro f hf
    rw [waitForAgent]
    refine waitLoop_progress probe timeout cancelAt f 0 (5 * sec) 0 [] ?_
    push_cast at hf ⊢
    linarith

theorem waitForAgent_polls_with_backoff_witness :
    (probeThirdW 2 = none ∧ [5 * sec, 10 * sec] = (List.range (3 - 1)).map backoffSeq) ∧
    waitForAgent probeThirdW (100 * (sec : Int)) none (21 + 1) ≠ .outOfFuel := by
  have h := (waitForAgent_polls_with_backoff probeThirdW (100 * (sec : Int)) none 5).1
    3 [5 * sec, 10 * sec] (by decide)
  refine ⟨⟨h.2.2.1, h.1⟩, ?_⟩
  exact (waitForAgent_polls_with_backoff probeThirdW (100 * (sec : Int)) none 5).2.2
    21 (by norm_num [sec])

/-- C6: whenever the wait is about to sleep (a probe just failed and the
deadline has not passed) and the calling context's cancellation time
lands before that sleep would complete, the wait returns the context's
cancellation immediately: the result carries the cancellation time, the
sleeps completed so far are unchanged (the interrupted sleep is not
completed) and no further probe is issued, regardless of remaining fuel. -/
theorem waitLoop_cancelled_during_sleep (probe : Nat → Option ClientError)
    (deadline : Int) (c now b k : Nat) (acc : List Nat) (fuel : Nat) (e : ClientError)
    (hp : probe k = some e) (hd : ¬ deadline < (now : Int)) (hc : c < now + b) :
    waitLoop probe deadline (some c) now b k acc (fuel + 1) =
      .cancelled c (k + 1) acc.reverse := by
  rw [waitLoop_succ, hp]
  dsimp only
  rw [if_neg hd, if_pos hc]

theorem waitLoop_cancelled_during_sleep_witness :
    waitLoop probeFailW (100 * (sec : Int)) (some 3) 0 (5 * sec) 0 [] (7 + 1) =
      .cancelled 3 (0 + 1) ([] : List Nat).reverse :=
  waitLoop_cancelled_during_sleep probeFailW (100 * sec) 3 0 (5 * sec) 0 [] 7
    (.other "down") rfl (by norm_num [sec]) (by norm_num [sec])

/-! ### Timeout elapsed-time bound (C7) -/

theorem waitLoop_elapsed_bound (probe : Nat → Option ClientError) (deadline : Int)
    (cancelAt : Option Nat) :
    ∀ (fuel : Nat) (now b k : Nat) (acc : List Nat),
      now = acc.sum →
      (now : Int) ≤ deadline + 30 * sec →
      b ≤ 30 * sec →
      ∀ n s e, waitLoop probe deadline cancelAt now b k acc fuel = .timeout n s e →
        (s.sum : Int) ≤ deadline + 30 * sec := by
  intro fuel
  induction fuel with
  | zero =>
    intro now b k acc h1 h2 h3 n s e hres
    rw [waitLoop_zero] at hres
    simp at hres
  | succ fuel ih =>
    intro now b k acc h1 h2 h3 n s e hres
    rw [waitLoop_succ] at hres
    cases hp : probe k with
    | none => rw [hp] at hres; simp at hres
    | some e' =>
      rw [hp] at hres
      dsimp only at hres
      by_cases hd : deadline < (now : Int)
      · rw [if_pos hd] at hres
        obtain ⟨hn, hs, he⟩ := WaitResult.timeout.inj hres
        subst hs
        rw [List.sum_reverse, ← h1]
        exact h2
      · rw [if_neg hd] at hres
        have h1' : now + b = (b :: acc).sum := by
          rw [List.sum_cons, h1]; omega
        have h2' : ((now + b : Nat) : Int) ≤ deadline + 30 * sec := by
          have hnd : (now : Int) ≤ deadline := not_lt.mp hd
          have hb : ((b : Nat) : Int) ≤ ((30 * sec : Nat) : Int) := by exact_mod_cast h3
          push_cast
          push_cast at hb
          omega
        have h3' : backoffNext b ≤ 30 * sec := backoffNext_le b h3
        cases cancelAt with
        | some c =>
          dsimp only at hres
          by_cases hc : c < now + b
          · rw [if_pos hc] at hres; simp at hres
          · rw [if_neg hc] at hres
            exact ih (now + b) (backoffNext b) (k + 1) (b :: acc) h1' h2' h3' n s e hres
        | none =>
          exact ih (now + b) (backoffNext b) (k + 1) (b :: acc) h1' h2' h3' n s e hres

/-- C7: a timeout result's total slept time never exceeds the timeout by
more than the 30-second backoff cap; and with a 1-second timeout and a
probe whose first two calls fail, the wait returns a timeout after the
second probe call having slept exactly once for 5 seconds (overshoot
bounded by the single 5-second backoff interval), wrapping the second
probe call's error. -/
theorem waitForAgent_timeout_bound :
    (∀ (probe : Nat → Option ClientError) (timeout : Int) (cancelAt : Option Nat)
        (fuel n : Nat) (s : List Nat) (e : ClientError), 0 ≤ timeout →
        waitForAgent probe timeout cancelAt fuel = .timeout n s e →
        (s.sum : Int) ≤ timeout + 30 * sec) ∧
    (∀ (probe : Nat → Option ClientError) (e0 e1 : ClientError) (f : Nat),
        probe 0 = some e0 → probe 1 = some e1 →
        waitForAgent probe (sec : Int) none (f + 2) = .timeout 2 [5 * sec] e1) := by
  constructor
  · intro probe timeout cancelAt fuel n s e htm hres
    rw [waitForAgent] at hres
    refine waitLoop_elapsed_bound probe timeout cancelAt fuel 0 (5 * sec) 0 []
      rfl ?_ ?_ n s e hres
    · have h30 : (0 : Int) ≤ 30 * sec := by norm_num [sec]
      omega
    · omega
  · intro probe e0 e1 f h0 h1
    rw [waitForAgent, waitLoop_succ, h0]
    dsimp only
    rw [if_neg (by norm_num [sec])]
    rw [waitLoop_succ, h1]
    dsimp only
    rw [if_pos (by push_cast; norm_num [sec])]
    norm_num

theorem waitForAgent_timeout_bound_witness :
    waitForAgent probeFailW (sec : Int) none (0 + 2) = .timeout 2 [5 * sec] (.other "down") ∧
    (([5 * sec] : List Nat).sum : Int) ≤ (sec : Int) + 30 * sec :=
  ⟨waitForAgent_timeout_bound.2 probeFailW (.other "down") (.other "down") 0 rfl rfl,
   waitForAgent_timeout_bound.1 probeFailW sec none 2 2 [5 * sec] (.other "down")
     (by norm_num [sec])
     (waitForAgent_timeout_bound.2 probeFailW (.other "down") (.other "down") 0 rfl rfl)⟩

/-! ### Create (C2) -/

/-- C2: the first-time creation path is trigger-blind and always deploys:
the whole Create run (its call trace and outcome) is unchanged under any
replacement of the trigger map, and whenever the reachability wait
succeeds, Create issues the backend up call with exactly the spec's
pull/force_recreate/remove_orphans options — every remote call it makes
is that deploy call or a GetProject call, never a redeploy. -/
theorem create_always_deploys (spec : DeploymentSpec) (pd : String → Option Int)
    (probe : Nat → Option ClientError) (cancelAt : Option Nat) (fuel : Nat)
    (deployResult : Option ClientError) (statusResult : Except ClientError String)
    (nowStr : String) :
    (∀ t, createProject { spec with triggers := t } pd probe cancelAt fuel
        deployResult statusResult nowStr =
      createProject spec pd probe cancelAt fuel deployResult statusResult nowStr) ∧
    (∀ n s, waitForAgent probe (parseWaitTimeout pd spec.waitTimeout) cancelAt fuel =
        .success n s →
      RemoteCall.deployProject spec.projectID spec.pull spec.forceRecreate spec.removeOrphans ∈
        (createProject spec pd probe cancelAt fuel deployResult statusResult nowStr).1 ∧
      ∀ c ∈ (createProject spec pd probe cancelAt fuel deployResult statusResult nowStr).1,
        c = RemoteCall.deployProject spec.projectID spec.pull spec.forceRecreate
              spec.removeOrphans ∨
        c = RemoteCall.getProject spec.projectID) := by
  constructor
  · intro t
    rfl
  · intro n s hw
    rw [createProject, hw]
    match deployResult with
    | some e =>
      constructor
      · simp
      · intro c hc
        simp only [List.mem_append, List.mem_replicate, List.mem_singleton] at hc
        rcases hc with ⟨_, rfl⟩ | rfl
        · exact Or.inr rfl
        · exact Or.inl rfl
    | none =>
      match statusResult with
      | .error e =>
        constructor
        · simp
        · intro c hc
          simp only [List.mem_append, List.mem_replicate, List.mem_cons,
            List.mem_singleton] at hc
          rcases hc with ⟨_, rfl⟩ | rfl | rfl | h
          · exact Or.inr rfl
          · exact Or.inl rfl
          · exact Or.inr rfl
          · simp at h
      | .ok st =>
        constructor
        · simp
        · intro c hc
          simp only [List.mem_append, List.mem_replicate, List.mem_cons,
            List.mem_singleton] at hc
          rcases hc with ⟨_, rfl⟩ | rfl | rfl | h
          · exact Or.inr rfl
          · exact Or.inl rfl
          · exact Or.inr rfl
          · simp at h

theorem create_always_deploys_witness :
    RemoteCall.deployProject "p1" true false true ∈
      (createProject specW parseDurationW (fun _ => none) none 1 none (.ok "running") "t").1 :=
  ((create_always_deploys specW parseDurationW (fun _ => none) none 1 none
      (.ok "running") "t").2 1 [] (by decide)).1

/-! ### Project-status containers output (C8) -/

/-- C8: the fallback from the detailed container list to the project's
service list happens exactly on a container-list error: on an error with
non-empty services the output is built from the services (empty id,
health and ports), on an error with no services it is null; a successful
but empty container list yields null with no fallback, and a successful
result never depends on the service list at all. -/
theorem statusRead_fallback_only_on_error (e : ClientError) (services : List ServiceInfo)
    (cs : List ContainerDetail) :
    (services ≠ [] →
      buildContainersOutput (.error e) services = some (services.map serviceAsContainer)) ∧
    (buildContainersOutput (.error e) [] = none) ∧
    (buildContainersOutput (.ok []) services = none) ∧
    (∀ services2, buildContainersOutput (.ok cs) services =
      buildContainersOutput (.ok cs) services2) := by
  refine ⟨?_, rfl, rfl, fun services2 => rfl⟩
  intro h
  rw [buildContainersOutput]
  rw [if_pos (List.length_pos.mpr h)]

theorem statusRead_fallback_only_on_error_witness :
    buildContainersOutput (.error (.other "transport")) [svcW] =
      some [serviceAsContainer svcW] :=
  (statusRead_fallback_only_on_error (.other "transport") [svcW] []).1
    (List.cons_ne_nil svcW [])

end Arcane
